import Mathlib

/-!
Verification of the MacGal library-synchronization core: a shallow embedding of
the catalogue data model, the instance store (sorting, persistence discipline),
the play-session event handler, the launch coordinator, the metadata search
aggregator, and the batch-import pipeline, together with theorems settling the
specification's claims about them.

Conventions of the embedding:
* Optional record fields of the source become `Option` fields; a JavaScript
  object key that is absent (or dropped by serialization) is `none`.
* A JavaScript plain object used as a string-keyed dictionary (`playHistory`,
  the dedup `Map`) becomes an association list `List (String × Nat)` whose
  order mirrors the object's key-insertion order.
* `Array.prototype.sort`, which the language pins down only as a stable sort
  consistent with the comparator, is embedded as `List.insertionSort` (stable)
  over the order the comparator induces.
* Asynchronous external collaborators (persistence, keyword extraction, the
  search providers, process launch) are parameters: fallible ones are
  functions into `Except Unit` / `Except String`.
-/

namespace MacGal

/-- One metadata search result returned by a provider (`SearchResult` in
`InstancesPage.tsx`). -/
structure SearchResult where
  id : String
  title : String
  cover : String
  source : String
  url : String
deriving DecidableEq

/-- One catalogue entry (`GameInstance` in `InstancesPage.tsx`).  Fields that
are optional in the source (`backgroundImage?`, `lastPlayed?`,
`totalPlayTime?`, `playHistory?`) are `Option`s; `playHistory` is the
insertion-ordered association list standing for the JS record. -/
structure GameInstance where
  id : String
  name : String
  info : String
  bottleName : String
  executablePath : String
  backgroundImage : Option String
  lastPlayed : Option Nat
  totalPlayTime : Option Nat
  playHistory : Option (List (String × Nat))
deriving DecidableEq

/-- Defaulted lookup in a play-history object: `history[key] || 0`. -/
def histLookup (h : List (String × Nat)) (k : String) : Nat :=
  match h.find? (fun p => p.1 == k) with
  | some p => p.2
  | none => 0

/-- The object spread-with-assignment `\x7b...history, [key]: v\x7d`: if the key
is already present its value is overwritten in place, otherwise the new key is
appended at the end. -/
def histAssign (h : List (String × Nat)) (k : String) (v : Nat) : List (String × Nat) :=
  if h.any (fun p => p.1 == k) then
    h.map (fun p => if p.1 == k then (k, v) else p)
  else h ++ [(k, v)]

/-- Sum of all values of a play-history object. -/
def histSum (h : List (String × Nat)) : Nat :=
  (h.map (fun p => p.2)).sum

/-- The order `sortInstances`' comparator induces (App.tsx lines 22-31):
`lastPlayed` descending with `undefined` read as 0, ties broken by `id`
descending (`b.id.localeCompare(a.id)`, embedded as the string order). -/
def instLe (a b : GameInstance) : Prop :=
  b.lastPlayed.getD 0 < a.lastPlayed.getD 0 ∨
    (a.lastPlayed.getD 0 = b.lastPlayed.getD 0 ∧ b.id ≤ a.id)

instance : DecidableRel instLe := fun a b => by
  unfold instLe; exact inferInstance

instance : IsTotal GameInstance instLe := by
  constructor
  intro a b
  rcases Nat.lt_trichotomy (a.lastPlayed.getD 0) (b.lastPlayed.getD 0) with h | h | h
  · exact Or.inr (Or.inl h)
  · rcases le_total b.id a.id with h2 | h2
    · exact Or.inl (Or.inr ⟨h, h2⟩)
    · exact Or.inr (Or.inr ⟨h.symm, h2⟩)
  · exact Or.inl (Or.inl h)

instance : IsTrans GameInstance instLe := by
  constructor
  intro a b c hab hbc
  rcases hab with h1 | ⟨h1, h1'⟩ <;> rcases hbc with h2 | ⟨h2, h2'⟩
  · exact Or.inl (h2.trans h1)
  · exact Or.inl (h2 ▸ h1)
  · exact Or.inl (h1 ▸ h2)
  · exact Or.inr ⟨h1.trans h2, le_trans h2' h1'⟩

/-- `sortInstances` (App.tsx lines 22-31): stable sort of the catalogue by the
comparator above. -/
def sortInstances (list : List GameInstance) : List GameInstance :=
  List.insertionSort instLe list

/-- A catalogue list sorted the way the ordered view must be. -/
def SortedInst (l : List GameInstance) : Prop :=
  List.Sorted instLe l

instance (l : List GameInstance) : Decidable (SortedInst l) := by
  unfold SortedInst
  exact inferInstance

/-- The payload the persistence collaborator hands back to `loadInstancesData`
(App.tsx lines 34-53) after `JSON.parse`: either a sequence of instances or
something that fails the `Array.isArray` check.  Serialization itself is the
external collaborator's contract (spec section 6: the serialized text
round-trips losslessly), so the payload carries the parsed value directly. -/
inductive Persisted where
  | seq (data : List GameInstance)
  | nonSeq
deriving DecidableEq

/-- `handleUpdateInstances` (App.tsx lines 62-68): sort the new canonical list,
make it the in-memory state, and write it through to persistence.  Returns the
new state together with the persisted payload. -/
def handleUpdateInstances (newInstances : List GameInstance) :
    List GameInstance × Persisted :=
  let sorted := sortInstances newInstances
  (sorted, Persisted.seq sorted)

/-- `loadInstancesData` (App.tsx lines 34-53): an array payload is sorted and
becomes the state; anything else resets the catalogue to `INITIAL_INSTANCES`
(the empty list). -/
def loadInstancesData : Persisted → List GameInstance
  | Persisted.seq loadedData => sortInstances loadedData
  | Persisted.nonSeq => []

/-- The per-instance update the `game-finished` listener performs (App.tsx
lines 82-94): add the session duration to `totalPlayTime` (absent read as 0)
and to today's `playHistory` bucket (absent history read as the empty
object). -/
def gameFinishedUpdate (todayKey : String) (duration_sec : Nat)
    (inst : GameInstance) : GameInstance :=
  let currentHistory := inst.playHistory.getD []
  let todayTime := histLookup currentHistory todayKey + duration_sec
  { inst with
    totalPlayTime := some (inst.totalPlayTime.getD 0 + duration_sec),
    playHistory := some (histAssign currentHistory todayKey todayTime) }

/-- The `game-finished` event applied to the latest in-memory catalogue
(App.tsx lines 79-99): map over the previous instances, updating exactly the
ones whose `id` matches the event's `instance_id`. -/
def applyGameFinished (todayKey instance_id : String) (duration_sec : Nat)
    (prevInstances : List GameInstance) : List GameInstance :=
  prevInstances.map (fun inst =>
    if inst.id == instance_id then gameFinishedUpdate todayKey duration_sec inst
    else inst)

/-- The comparator of the extra in-place sort inside `handleLaunch` (App.tsx
line 127): `lastPlayed` descending only, no tie-break. -/
def timeLe (a b : GameInstance) : Prop :=
  b.lastPlayed.getD 0 ≤ a.lastPlayed.getD 0

instance : DecidableRel timeLe := fun a b => by
  unfold timeLe; exact inferInstance

instance : IsTotal GameInstance timeLe := by
  constructor
  intro a b
  rcases le_total (b.lastPlayed.getD 0) (a.lastPlayed.getD 0) with h | h
  · exact Or.inl h
  · exact Or.inr h

instance : IsTrans GameInstance timeLe := by
  constructor
  intro a b c hab hbc
  exact le_trans hbc hab

/-- `handleLaunch` (App.tsx lines 111-133).  The external process launch is the
`launchResult` parameter (`Ok pid` or a rejection).  On failure the `catch`
branch performs no state mutation and no persistence write; on success
`lastPlayed := Date.now()` is written into the launched instance, the list is
sorted in place by `lastPlayed` and handed to `handleUpdateInstances`. -/
def handleLaunch (launchResult : Except String Nat) (now : Nat)
    (inst : GameInstance) (instances : List GameInstance) :
    List GameInstance × Option Persisted :=
  match launchResult with
  | Except.error _ => (instances, none)
  | Except.ok _pid =>
    let newInstances := instances.map (fun i =>
      if i.id == inst.id then { i with lastPlayed := some now } else i)
    let sorted := List.insertionSort timeLe newInstances
    let res := handleUpdateInstances sorted
    (res.1, some res.2)

/-- JavaScript string truthiness of an optional string: `undefined` and the
empty string are falsy. -/
def truthyStr : Option String → Bool
  | some s => !(s == "")
  | none => false

/-- The JS expression `a || c` with a string (or absent) left operand and a
string fallback: the fallback is taken when `a` is absent or empty. -/
def jsOrStr (a : Option String) (c : String) : String :=
  match a with
  | some s => if s == "" then c else s
  | none => c

/-- The JS expression `a || b` on two optional strings: `b` whenever `a` is
falsy (absent or empty). -/
def jsOrOpt (a b : Option String) : Option String :=
  if truthyStr a then a else b

/-- The edit form's `formData : Partial<GameInstance>` (InstancesPage.tsx):
every field of `GameInstance` made optional; an absent field is a key the
partial object does not carry. -/
structure FormData where
  id : Option String
  name : Option String
  info : Option String
  bottleName : Option String
  executablePath : Option String
  backgroundImage : Option String
  lastPlayed : Option Nat
  totalPlayTime : Option Nat
  playHistory : Option (List (String × Nat))
deriving DecidableEq

/-- `handleStartEdit` (InstancesPage.tsx lines 92-97): `setFormData(\x7b ...instance \x7d)`
copies exactly the keys the instance carries into the partial form object. -/
def handleStartEdit (g : GameInstance) : FormData :=
  { id := some g.id
    name := some g.name
    info := some g.info
    bottleName := some g.bottleName
    executablePath := some g.executablePath
    backgroundImage := g.backgroundImage
    lastPlayed := g.lastPlayed
    totalPlayTime := g.totalPlayTime
    playHistory := g.playHistory }

/-- Typing in the name input: `setFormData(\x7b ...formData, name: v \x7d)`. -/
def setFormName (f : FormData) (v : String) : FormData :=
  { f with name := some v }

/-- The object spread `\x7b ...i, ...formData \x7d` of `handleSave`'s edit branch
(InstancesPage.tsx line 121): every key the form object carries overrides the
instance's field, every absent key leaves the instance's field in place. -/
def mergeFormData (i : GameInstance) (f : FormData) : GameInstance :=
  { id := f.id.getD i.id
    name := f.name.getD i.name
    info := f.info.getD i.info
    bottleName := f.bottleName.getD i.bottleName
    executablePath := f.executablePath.getD i.executablePath
    backgroundImage := f.backgroundImage.or i.backgroundImage
    lastPlayed := f.lastPlayed.or i.lastPlayed
    totalPlayTime := f.totalPlayTime.or i.totalPlayTime
    playHistory := f.playHistory.or i.playHistory }

/-- The fresh instance `handleSave`'s creation branch builds (InstancesPage.tsx
lines 107-116): id from `Date.now().toString()`, defaulted info and bottle,
zeroed play statistics. -/
def createdInstance (now : Nat) (nm ex : String) (f : FormData) : GameInstance :=
  { id := toString now
    name := nm
    info := jsOrStr f.info "自定义实例"
    bottleName := jsOrStr f.bottleName "Default"
    executablePath := ex
    backgroundImage := none
    lastPlayed := some 0
    totalPlayTime := some 0
    playHistory := some [] }

/-- `handleSave`, creation branch (InstancesPage.tsx lines 99-127, with
`isCreating` set): a missing/empty name or executable path is rejected with a
toast (`none`); otherwise a fresh instance with zeroed play statistics is
appended and the new list is handed to `setInstances =
handleUpdateInstances`.  `now` stands for `Date.now()`, whose decimal string
becomes the new id. -/
def handleSaveCreate (now : Nat) (f : FormData)
    (instances : List GameInstance) : Option (List GameInstance × Persisted) :=
  match f.name, f.executablePath with
  | some nm, some ex =>
    if nm == "" || ex == "" then none
    else some (handleUpdateInstances (instances ++ [createdInstance now nm ex f]))
  | _, _ => none

/-- `handleSave`, edit branch (InstancesPage.tsx lines 99-127, `selectedId`
set): after the same name/path guard, the instance whose id is selected is
replaced by `\x7b ...i, ...formData \x7d` and the list goes through
`handleUpdateInstances`. -/
def handleSaveEdit (selectedId : String) (f : FormData)
    (instances : List GameInstance) : Option (List GameInstance × Persisted) :=
  match f.name, f.executablePath with
  | some nm, some ex =>
    if nm == "" || ex == "" then none
    else
      some (handleUpdateInstances (instances.map (fun i =>
        if i.id == selectedId then mergeFormData i f else i)))
  | _, _ => none

/-- Status of one batch-import item (`BatchItem.status`). -/
inductive BatchStatus where
  | pending
  | matching
  | matched
  | unmatched
deriving DecidableEq

/-- One row of the batch-import dialog (`BatchItem` in InstancesPage.tsx);
`manualInfo` is a `Partial<GameInstance>` and reuses `FormData`. -/
structure BatchItem where
  id : String
  selected : Bool
  dirName : String
  executables : List String
  selectedExec : String
  bottleName : String
  status : BatchStatus
  matchedResult : Option SearchResult
  searchResults : List SearchResult
  manualInfo : FormData
deriving DecidableEq

/-- The dedup key the aggregator uses: `item.title + item.source`, plain
string concatenation (InstancesPage.tsx line 466). -/
def resKey (r : SearchResult) : String :=
  r.title ++ r.source

/-- One `uniqueMap.set(item.title + item.source, item)` step: an existing key
keeps its position and gets the new value (last write wins), a new key is
appended (JS `Map` preserves first-insertion order). -/
def upsertByKey (acc : List (String × SearchResult)) (item : SearchResult) :
    List (String × SearchResult) :=
  if acc.any (fun p => p.1 == resKey item) then
    acc.map (fun p => if p.1 == resKey item then (p.1, item) else p)
  else acc ++ [(resKey item, item)]

/-- The per-request fan-out of `fetchGameResults` (InstancesPage.tsx lines
456-463): for each keyword one request per provider (`touchgal`, `kungal`),
each individually guarded by `.catch(() => [])`. -/
def searchAllRequests (search : String → String → Except Unit (List SearchResult))
    (keywords : List String) : List (List SearchResult) :=
  keywords.flatMap (fun kw =>
    [(search kw "touchgal").toOption.getD [], (search kw "kungal").toOption.getD []])

/-- The merged `allResults` list of `fetchGameResults` (InstancesPage.tsx
lines 457-463): the per-request results in request order. -/
def mergedResults (search : String → String → Except Unit (List SearchResult))
    (keywords : List String) : List SearchResult :=
  (searchAllRequests search keywords).flatten

/-- `fetchGameResults` (InstancesPage.tsx lines 456-468): merge all request
results, deduplicate through the keyed map, return the map's values. -/
def fetchGameResults (search : String → String → Except Unit (List SearchResult))
    (keywords : List String) : List SearchResult :=
  ((mergedResults search keywords).foldl upsertByKey []).map (fun p => p.2)

/-- Eligibility for a matching run (InstancesPage.tsx line 558):
`i.selected && (i.status === 'pending' || i.status === 'unmatched')`. -/
def shouldMatch (i : BatchItem) : Bool :=
  i.selected && (i.status == BatchStatus.pending || i.status == BatchStatus.unmatched)

/-- `updateBatchItem` (InstancesPage.tsx lines 546-548): apply a field update
to every item with the given id. -/
def updateBatchItem (prev : List BatchItem) (bid : String)
    (f : BatchItem → BatchItem) : List BatchItem :=
  prev.map (fun item => if item.id == bid then f item else item)

/-- The phase that marks every item about to be matched as `matching`
(InstancesPage.tsx line 559). -/
def markMatching (batchItems : List BatchItem) : List BatchItem :=
  let itemsToMatch := batchItems.filter shouldMatch
  batchItems.map (fun item =>
    if itemsToMatch.any (fun i => i.id == item.id) then
      { item with status := BatchStatus.matching }
    else item)

/-- One iteration of the matching loop (InstancesPage.tsx lines 561-577) for
the item `item` drawn from `itemsToMatch`: keyword extraction failure or an
empty keyword list or an empty aggregation leaves the item `unmatched` with
empty `searchResults`; a non-empty aggregation makes it `matched` with
`matchedResult` defaulted to the first result. -/
def matchOne (getKeywords : String → Except Unit (List String))
    (search : String → String → Except Unit (List SearchResult))
    (cur : List BatchItem) (item : BatchItem) : List BatchItem :=
  match getKeywords item.selectedExec with
  | Except.error _ =>
    updateBatchItem cur item.id (fun it =>
      { it with status := BatchStatus.unmatched, searchResults := [] })
  | Except.ok keywords =>
    if keywords.length == 0 then
      updateBatchItem cur item.id (fun it =>
        { it with status := BatchStatus.unmatched, searchResults := [] })
    else
      match fetchGameResults search keywords with
      | [] =>
        updateBatchItem cur item.id (fun it =>
          { it with status := BatchStatus.unmatched, searchResults := [] })
      | r0 :: rs =>
        updateBatchItem cur item.id (fun it =>
          { it with status := BatchStatus.matched,
                    matchedResult := some r0,
                    searchResults := r0 :: rs })

/-- `handleStartBatchMatching` (InstancesPage.tsx lines 556-579): select the
eligible items, mark them all `matching`, then resolve them sequentially. -/
def handleStartBatchMatching (getKeywords : String → Except Unit (List String))
    (search : String → String → Except Unit (List SearchResult))
    (batchItems : List BatchItem) : List BatchItem :=
  (batchItems.filter shouldMatch).foldl (matchOne getKeywords search)
    (markMatching batchItems)

/-- The `GameInstance` built for one committed batch item (InstancesPage.tsx
lines 587-598): name and cover fall through `manualInfo`, then the matched
result, by JS `||` truthiness; play statistics are not initialized. -/
def batchInstanceOf (freshId : String) (item : BatchItem) : GameInstance :=
  { id := freshId
    name := jsOrStr (jsOrOpt item.manualInfo.name
      (item.matchedResult.map (fun r => r.title))) item.dirName
    info := jsOrStr item.manualInfo.info ""
    bottleName := item.bottleName
    executablePath := item.selectedExec
    backgroundImage := jsOrOpt item.manualInfo.backgroundImage
      (item.matchedResult.map (fun r => r.cover))
    lastPlayed := none
    totalPlayTime := none
    playHistory := none }

/-- `handleConfirmBatchImport` (InstancesPage.tsx lines 581-603): zero selected
items are rejected (`none`, catalogue untouched); otherwise one instance per
selected item is built (`freshIds n` standing for the n-th
`crypto.randomUUID()`) and the whole batch is appended to the prior catalogue
in the single `setInstances = handleUpdateInstances` call. -/
def handleConfirmBatchImport (freshIds : Nat → String)
    (batchItems : List BatchItem) (instances : List GameInstance) :
    Option (List GameInstance × Persisted) :=
  let toImport := batchItems.filter (fun i => i.selected)
  if toImport.length == 0 then none
  else
    let newInstances := toImport.enum.map (fun p => batchInstanceOf (freshIds p.1) p.2)
    some (handleUpdateInstances (instances ++ newInstances))

/-- Spec-following variant for the aggregator's dedup identity, written from
the spec's words (section 3: identity for deduplication is the pair
`(title, source)`): the same keyed-map algorithm, but keyed by the actual
pair rather than the concatenated string.  Used to compare against
`fetchGameResults`' concatenation key. -/
def dedupByPairSpec (l : List SearchResult) : List SearchResult :=
  (l.foldl (fun acc item =>
    if acc.any (fun p => p.1 == (item.title, item.source)) then
      acc.map (fun p => if p.1 == (item.title, item.source) then (p.1, item) else p)
    else acc ++ [((item.title, item.source), item)]) []).map (fun p => p.2)

/-- First-seen order of dedup keys: the key of the head, then the remaining
first-seen keys without it. -/
def firstOccKeys : List SearchResult → List String
  | [] => []
  | r :: rest => resKey r :: (firstOccKeys rest).filter (fun k => !(k == resKey r))

/-- The last element of the list carrying the given dedup key, if any
(last-write-wins reference semantics). -/
def lastValueByKey : List SearchResult → String → Option SearchResult
  | [], _ => none
  | r :: rest, k =>
    match lastValueByKey rest k with
    | some v => some v
    | none => if resKey r == k then some r else none

/-- Spec-following variant of the batch-commit name, written from the spec's
words (section 4.5: `name = manualInfo.name ?? matchedResult.title ??
dirName`, nullish coalescing). -/
def batchNameSpec (item : BatchItem) : String :=
  (item.manualInfo.name).getD
    ((item.matchedResult.map (fun r => r.title)).getD item.dirName)

/-- The per-item outcome `handleStartBatchMatching` leaves an eligible item
in, as a function of the two collaborators: the target of the
characterization theorem for the matching run. -/
def matchingOutcomeView (getKeywords : String → Except Unit (List String))
    (search : String → String → Except Unit (List SearchResult))
    (it : BatchItem) : BatchItem :=
  match getKeywords it.selectedExec with
  | Except.error _ => { it with status := BatchStatus.unmatched, searchResults := [] }
  | Except.ok keywords =>
    if keywords.length == 0 then
      { it with status := BatchStatus.unmatched, searchResults := [] }
    else
      match fetchGameResults search keywords with
      | [] => { it with status := BatchStatus.unmatched, searchResults := [] }
      | r0 :: rs =>
        { it with status := BatchStatus.matched,
                  matchedResult := some r0,
                  searchResults := r0 :: rs }

/-- Well-formed play statistics: either neither statistic has been
materialized yet, or both are present, the history's keys are distinct (it
stands for a JS object) and `totalPlayTime` is the sum of the history's
values. -/
def PlaytimeWF (g : GameInstance) : Prop :=
  match g.totalPlayTime, g.playHistory with
  | none, none => True
  | some t, some h => t = histSum h ∧ (h.map (fun p => p.1)).Nodup
  | _, _ => False

instance (g : GameInstance) : Decidable (PlaytimeWF g) :=
  match ht : g.totalPlayTime, hh : g.playHistory with
  | none, none => isTrue (by unfold PlaytimeWF; rw [ht, hh]; trivial)
  | some t, some h =>
    decidable_of_iff (t = histSum h ∧ (h.map (fun p => p.1)).Nodup)
      (by unfold PlaytimeWF; rw [ht, hh])
  | none, some h => isFalse (by unfold PlaytimeWF; rw [ht, hh]; exact fun hx => hx)
  | some t, none => isFalse (by unfold PlaytimeWF; rw [ht, hh]; exact fun hx => hx)

/-- A legitimate edit form: its play-statistic fields were captured by
`handleStartEdit` from a well-formed instance (the form inputs never touch
them), so they are either both absent or both present and consistent. -/
def FormWF (f : FormData) : Prop :=
  (f.totalPlayTime = none ∧ f.playHistory = none) ∨
  (∃ t h, f.totalPlayTime = some t ∧ f.playHistory = some h ∧
    t = histSum h ∧ (h.map (fun p => p.1)).Nodup)

/-- One legitimate catalogue update: form creation, edit-save with a
legitimately captured form, a launch (successful or failed), a play-session
event, or a batch-import commit. -/
inductive Step : List GameInstance → List GameInstance → Prop
  | create (now : Nat) (f : FormData) (l l2 : List GameInstance) (p : Persisted)
      (h : handleSaveCreate now f l = some (l2, p)) : Step l l2
  | editSave (sel : String) (f : FormData) (l l2 : List GameInstance) (p : Persisted)
      (hf : FormWF f) (h : handleSaveEdit sel f l = some (l2, p)) : Step l l2
  | launch (res : Except String Nat) (now : Nat) (inst : GameInstance)
      (l : List GameInstance) : Step l (handleLaunch res now inst l).1
  | sessionEnd (k iid : String) (d : Nat) (l : List GameInstance) :
      Step l (applyGameFinished k iid d l)
  | batchCommit (ids : Nat → String) (items : List BatchItem)
      (l l2 : List GameInstance) (p : Persisted)
      (h : handleConfirmBatchImport ids items l = some (l2, p)) : Step l l2

/-- A form-created instance used by the concrete scenarios: zeroed play
statistics, never launched. -/
def instA : GameInstance :=
  { id := "a", name := "old", info := "v1", bottleName := "Default",
    executablePath := "C:/g.exe", backgroundImage := none,
    lastPlayed := some 0, totalPlayTime := some 0, playHistory := some [] }

/-- A second concrete instance with a different id. -/
def instB : GameInstance :=
  { id := "b", name := "B", info := "", bottleName := "Default",
    executablePath := "C:/b.exe", backgroundImage := none,
    lastPlayed := some 5, totalPlayTime := some 3,
    playHistory := some [("2024-01-01", 3)] }

/-- A third concrete instance. -/
def instC : GameInstance :=
  { id := "c", name := "C", info := "", bottleName := "Default",
    executablePath := "C:/c.exe", backgroundImage := none,
    lastPlayed := none, totalPlayTime := none, playHistory := none }

/-- The empty partial object `\x7b\x7d` a fresh `manualInfo` starts as. -/
def emptyFormData : FormData :=
  { id := none, name := none, info := none, bottleName := none,
    executablePath := none, backgroundImage := none, lastPlayed := none,
    totalPlayTime := none, playHistory := none }

/-- A concrete search result from the `touchgal` provider. -/
def resT : SearchResult :=
  { id := "t1", title := "T", cover := "http://cover.t", source := "touchgal",
    url := "http://t" }

/-- A concrete matched batch item whose manual name override is the empty
string (typed and erased in the manual-edit form). -/
def itemM : BatchItem :=
  { id := "b1", selected := true, dirName := "GameDir",
    executables := ["C:/G/a.exe"], selectedExec := "C:/G/a.exe",
    bottleName := "Default", status := BatchStatus.matched,
    matchedResult := some resT, searchResults := [resT],
    manualInfo := { emptyFormData with name := some "" } }

/-- The same item deselected. -/
def itemM2 : BatchItem :=
  { itemM with selected := false, id := "b2" }

/-- The same item with no manual override. -/
def itemM3 : BatchItem :=
  { itemM with id := "b3", manualInfo := emptyFormData }

/-- The update `matchOne` applies to the matched-id elements of the current
list, driven by the loop item `item` (only its `selectedExec` feeds the
collaborators): the matching outcome folded into one per-element function. -/
def outcomeUpd (getKeywords : String → Except Unit (List String))
    (search : String → String → Except Unit (List SearchResult))
    (item : BatchItem) : BatchItem → BatchItem := fun it =>
  match getKeywords item.selectedExec with
  | Except.error _ => { it with status := BatchStatus.unmatched, searchResults := [] }
  | Except.ok keywords =>
    if keywords.length == 0 then
      { it with status := BatchStatus.unmatched, searchResults := [] }
    else
      match fetchGameResults search keywords with
      | [] => { it with status := BatchStatus.unmatched, searchResults := [] }
      | r0 :: rs =>
        { it with status := BatchStatus.matched,
                  matchedResult := some r0,
                  searchResults := r0 :: rs }

/-- A selected pending batch item whose executable yields keywords. -/
def itemP : BatchItem :=
  { id := "p1", selected := true, dirName := "GameDir",
    executables := ["C:/G/a.exe"], selectedExec := "C:/G/a.exe",
    bottleName := "Default", status := BatchStatus.pending,
    matchedResult := none, searchResults := [], manualInfo := emptyFormData }

/-- A selected pending item whose executable yields no keywords. -/
def itemQ : BatchItem :=
  { itemP with id := "p2", selectedExec := "C:/empty.exe" }

/-- An unselected pending item. -/
def itemR : BatchItem :=
  { itemP with id := "p3", selected := false }

/-- A concrete keyword-extraction collaborator. -/
def gkW : String → Except Unit (List String) := fun path =>
  if path == "C:/G/a.exe" then Except.ok ["kw"] else Except.ok []

/-- A concrete search collaborator: `touchgal` answers, `kungal` fails. -/
def searchW : String → String → Except Unit (List SearchResult) := fun _ src =>
  if src == "touchgal" then Except.ok [resT] else Except.error ()

/-- A result whose concatenated dedup key is "abc" via title "ab". -/
def resAB : SearchResult :=
  { id := "1", title := "ab", cover := "", source := "c", url := "" }

/-- A result whose concatenated dedup key is "abc" via title "a". -/
def resA : SearchResult :=
  { id := "2", title := "a", cover := "", source := "bc", url := "" }

/-- Two providers returning the two colliding results. -/
def searchC9 : String → String → Except Unit (List SearchResult) := fun _ src =>
  if src == "touchgal" then Except.ok [resAB] else Except.ok [resA]

/-! ## Lemmas about the play-history object -/

theorem histLookup_nil (k : String) : histLookup [] k = 0 := rfl

theorem histLookup_cons (a : String × Nat) (t : List (String × Nat)) (k : String) :
    histLookup (a :: t) k = if a.1 = k then a.2 else histLookup t k := by
  by_cases ha : a.1 = k
  · rw [if_pos ha]
    unfold histLookup
    rw [List.find?_cons_of_pos]
    simpa using ha
  · rw [if_neg ha]
    unfold histLookup
    rw [List.find?_cons_of_neg]
    simpa using ha

theorem overwriteFun_eq (k : String) (v : Nat) :
    (fun p : String × Nat => if p.1 == k then (k, v) else p)
      = (fun p => if p.1 = k then (k, v) else p) := by
  funext p
  by_cases hp : p.1 = k <;> simp [hp]

theorem histLookup_map_overwrite (h : List (String × Nat)) (k : String) (v : Nat) :
    histLookup (h.map (fun p => if p.1 = k then (k, v) else p)) k
      = if h.any (fun p => p.1 == k) then v else 0 := by
  induction h with
  | nil => rfl
  | cons a t ih =>
    by_cases ha : a.1 = k
    · simp [List.map_cons, histLookup_cons, ha, List.any_cons]
    · have ha' : (a.1 == k) = false := by simpa using ha
      rw [List.map_cons, if_neg ha, histLookup_cons, if_neg ha, ih,
        List.any_cons, ha', Bool.false_or]

theorem histLookup_map_overwrite_other (h : List (String × Nat)) (k k2 : String)
    (v : Nat) (hne : k2 ≠ k) :
    histLookup (h.map (fun p => if p.1 = k then (k, v) else p)) k2
      = histLookup h k2 := by
  induction h with
  | nil => rfl
  | cons a t ih =>
    by_cases ha : a.1 = k
    · have ha2 : ¬ a.1 = k2 := by rw [ha]; exact Ne.symm hne
      simp [List.map_cons, histLookup_cons, ha, ha2, Ne.symm hne, ih]
    · simp [List.map_cons, histLookup_cons, ha, ih]

theorem histLookup_append_one (h : List (String × Nat)) (k k2 : String) (v : Nat) :
    histLookup (h ++ [(k, v)]) k2
      = if h.any (fun p => p.1 == k2) then histLookup h k2
        else if k = k2 then v else 0 := by
  induction h with
  | nil => simp [histLookup_cons, histLookup_nil]
  | cons a t ih =>
    by_cases ha : a.1 = k2
    · simp [List.cons_append, histLookup_cons, ha, List.any_cons]
    · have ha' : (a.1 == k2) = false := by simpa using ha
      rw [List.cons_append, histLookup_cons, if_neg ha, ih,
        List.any_cons, ha', Bool.false_or, histLookup_cons, if_neg ha]

theorem histLookup_zero_of_absent (h : List (String × Nat)) (k : String)
    (hk : h.any (fun p => p.1 == k) = false) : histLookup h k = 0 := by
  induction h with
  | nil => rfl
  | cons a t ih =>
    simp only [List.any_cons, Bool.or_eq_false_iff] at hk
    have ha : ¬ a.1 = k := by simpa using hk.1
    simp [histLookup_cons, ha, ih hk.2]

theorem histAssign_eq_overwrite (h : List (String × Nat)) (k : String) (v : Nat)
    (hk : h.any (fun p => p.1 == k) = true) :
    histAssign h k v = h.map (fun p => if p.1 = k then (k, v) else p) := by
  unfold histAssign
  rw [if_pos hk, overwriteFun_eq]

theorem histAssign_eq_append (h : List (String × Nat)) (k : String) (v : Nat)
    (hk : h.any (fun p => p.1 == k) = false) :
    histAssign h k v = h ++ [(k, v)] := by
  unfold histAssign
  rw [if_neg (by simp [hk])]

theorem histLookup_assign_same (h : List (String × Nat)) (k : String) (v : Nat) :
    histLookup (histAssign h k v) k = v := by
  cases hk : h.any (fun p => p.1 == k) with
  | true => rw [histAssign_eq_overwrite h k v hk, histLookup_map_overwrite, if_pos hk]
  | false => rw [histAssign_eq_append h k v hk, histLookup_append_one, hk]; simp

theorem histLookup_assign_other (h : List (String × Nat)) (k k2 : String)
    (v : Nat) (hne : k2 ≠ k) :
    histLookup (histAssign h k v) k2 = histLookup h k2 := by
  cases hk : h.any (fun p => p.1 == k) with
  | true =>
    rw [histAssign_eq_overwrite h k v hk]
    exact histLookup_map_overwrite_other h k k2 v hne
  | false =>
    rw [histAssign_eq_append h k v hk, histLookup_append_one]
    cases hk2 : h.any (fun p => p.1 == k2) with
    | true => simp
    | false => simp [histLookup_zero_of_absent h k2 hk2, Ne.symm hne]

/-! ## The play-session event handler (claims C2, C3) -/

theorem applyGameFinished_no_match (todayKey instance_id : String) (d : Nat)
    (l : List GameInstance) (hno : ∀ g ∈ l, g.id ≠ instance_id) :
    applyGameFinished todayKey instance_id d l = l := by
  unfold applyGameFinished
  have : ∀ g ∈ l,
      (if g.id == instance_id then gameFinishedUpdate todayKey d g else g) = g := by
    intro g hg
    rw [if_neg]
    simp [hno g hg]
  calc l.map (fun inst => if inst.id == instance_id
          then gameFinishedUpdate todayKey d inst else inst)
      = l.map id := List.map_congr_left this
    _ = l := List.map_id l

/-- Claim C2: a play-session event applied to a catalogue replaces exactly the
instance whose id matches, adding the duration to its `totalPlayTime` (absent
read as 0) and to today's `playHistory` bucket, leaving every other field of
the matched instance and every other instance unchanged; an event whose id
matches no instance is a no-op on the catalogue. -/
theorem C2_game_finished_event (todayKey instance_id : String) (d : Nat)
    (l l1 l2 : List GameInstance) (A : GameInstance) :
    ((∀ g ∈ l, g.id ≠ instance_id) →
      applyGameFinished todayKey instance_id d l = l) ∧
    (l = l1 ++ A :: l2 → A.id = instance_id →
      (∀ g ∈ l1, g.id ≠ instance_id) → (∀ g ∈ l2, g.id ≠ instance_id) →
      (applyGameFinished todayKey instance_id d l
          = l1 ++ gameFinishedUpdate todayKey d A :: l2 ∧
        (gameFinishedUpdate todayKey d A).totalPlayTime
          = some (A.totalPlayTime.getD 0 + d) ∧
        histLookup ((gameFinishedUpdate todayKey d A).playHistory.getD []) todayKey
          = histLookup (A.playHistory.getD []) todayKey + d ∧
        (∀ k2, k2 ≠ todayKey →
          histLookup ((gameFinishedUpdate todayKey d A).playHistory.getD []) k2
            = histLookup (A.playHistory.getD []) k2) ∧
        (gameFinishedUpdate todayKey d A).id = A.id ∧
        (gameFinishedUpdate todayKey d A).name = A.name ∧
        (gameFinishedUpdate todayKey d A).info = A.info ∧
        (gameFinishedUpdate todayKey d A).bottleName = A.bottleName ∧
        (gameFinishedUpdate todayKey d A).executablePath = A.executablePath ∧
        (gameFinishedUpdate todayKey d A).backgroundImage = A.backgroundImage ∧
        (gameFinishedUpdate todayKey d A).lastPlayed = A.lastPlayed)) := by
  constructor
  · exact applyGameFinished_no_match todayKey instance_id d l
  · intro hl hA h1 h2
    subst hl
    refine ⟨?_, rfl, ?_, ?_, rfl, rfl, rfl, rfl, rfl, rfl, rfl⟩
    · unfold applyGameFinished
      rw [List.map_append, List.map_cons, if_pos (by simp [hA])]
      have e1 : l1.map (fun inst => if inst.id == instance_id
          then gameFinishedUpdate todayKey d inst else inst) = l1 := by
        have := applyGameFinished_no_match todayKey instance_id d l1 h1
        simpa [applyGameFinished] using this
      have e2 : l2.map (fun inst => if inst.id == instance_id
          then gameFinishedUpdate todayKey d inst else inst) = l2 := by
        have := applyGameFinished_no_match todayKey instance_id d l2 h2
        simpa [applyGameFinished] using this
      rw [e1, e2]
    · show histLookup (histAssign (A.playHistory.getD []) todayKey
          (histLookup (A.playHistory.getD []) todayKey + d)) todayKey
        = histLookup (A.playHistory.getD []) todayKey + d
      exact histLookup_assign_same _ _ _
    · intro k2 hk2
      show histLookup (histAssign (A.playHistory.getD []) todayKey
          (histLookup (A.playHistory.getD []) todayKey + d)) k2
        = histLookup (A.playHistory.getD []) k2
      exact histLookup_assign_other _ _ _ _ hk2

/-- Witness for C2 at concrete inputs: a no-op event for an unknown id, and an
event hitting the middle instance of a three-element catalogue. -/
theorem C2_game_finished_event_witness :
    (∀ g ∈ [instA, instB], g.id ≠ "zzz") ∧
    applyGameFinished "2024-01-02" "zzz" 7 [instA, instB] = [instA, instB] ∧
    applyGameFinished "2024-01-01" "b" 7 [instA, instB, instC]
      = [instA] ++ gameFinishedUpdate "2024-01-01" 7 instB :: [instC] :=
  ⟨by decide,
   (C2_game_finished_event "2024-01-02" "zzz" 7 [instA, instB] [] []
     instA).1 (by decide),
   ((C2_game_finished_event "2024-01-01" "b" 7 [instA, instB, instC] [instA]
     [instC] instB).2 rfl rfl (by decide) (by decide)).1⟩

/-- Claim C3 counterexample: a zero-duration event is not an identity on
`playHistory` — on an instance whose history has no entry for today, it
creates a zero-valued entry for today's key. -/
theorem C3_zero_event_counterexample :
    (applyGameFinished "2024-01-01" "a" 0 [instA]).map (fun g => g.playHistory)
        = [some [("2024-01-01", 0)]] ∧
    instA.playHistory = some [] ∧
    (some [("2024-01-01", (0 : Nat))] : Option (List (String × Nat)))
      ≠ some [] := ⟨by decide, rfl, by decide⟩

/-- Claim C3 (amended): a zero-duration event leaves `totalPlayTime`'s numeric
value (absent read as 0) and every defaulted `playHistory` lookup unchanged,
and every non-playtime field untouched; it is an identity only up to these
defaulted views, since it materializes a zero entry for today's key (and a
zero `totalPlayTime`) when absent. -/
theorem C3_zero_event_preserves_views (todayKey instance_id : String)
    (l : List GameInstance) (g : GameInstance)
    (hg : g ∈ applyGameFinished todayKey instance_id 0 l) :
    ∃ g0 ∈ l, g.id = g0.id ∧ g.name = g0.name ∧ g.info = g0.info ∧
      g.bottleName = g0.bottleName ∧ g.executablePath = g0.executablePath ∧
      g.backgroundImage = g0.backgroundImage ∧ g.lastPlayed = g0.lastPlayed ∧
      g.totalPlayTime.getD 0 = g0.totalPlayTime.getD 0 ∧
      (∀ k2, histLookup (g.playHistory.getD []) k2
        = histLookup (g0.playHistory.getD []) k2) := by
  unfold applyGameFinished at hg
  rcases List.mem_map.mp hg with ⟨g0, hg0, hfg⟩
  refine ⟨g0, hg0, ?_⟩
  cases hb : (g0.id == instance_id) with
  | false =>
    rw [if_neg (by simp [hb])] at hfg
    subst hfg
    exact ⟨rfl, rfl, rfl, rfl, rfl, rfl, rfl, rfl, fun _ => rfl⟩
  | true =>
    rw [if_pos (by simp [hb])] at hfg
    subst hfg
    refine ⟨rfl, rfl, rfl, rfl, rfl, rfl, rfl, by simp [gameFinishedUpdate], ?_⟩
    intro k2
    show histLookup (histAssign (g0.playHistory.getD []) todayKey
        (histLookup (g0.playHistory.getD []) todayKey + 0)) k2
      = histLookup (g0.playHistory.getD []) k2
    by_cases hk2 : k2 = todayKey
    · subst hk2
      rw [histLookup_assign_same]
      exact Nat.add_zero _
    · exact histLookup_assign_other _ _ _ _ hk2

/-- Witness for the amended C3 at a concrete input. -/
theorem C3_zero_event_preserves_views_witness :
    gameFinishedUpdate "2024-01-01" 0 instA
        ∈ applyGameFinished "2024-01-01" "a" 0 [instA] ∧
    ∃ g0 ∈ [instA],
      (gameFinishedUpdate "2024-01-01" 0 instA).id = g0.id ∧
      (gameFinishedUpdate "2024-01-01" 0 instA).name = g0.name ∧
      (gameFinishedUpdate "2024-01-01" 0 instA).info = g0.info ∧
      (gameFinishedUpdate "2024-01-01" 0 instA).bottleName = g0.bottleName ∧
      (gameFinishedUpdate "2024-01-01" 0 instA).executablePath = g0.executablePath ∧
      (gameFinishedUpdate "2024-01-01" 0 instA).backgroundImage = g0.backgroundImage ∧
      (gameFinishedUpdate "2024-01-01" 0 instA).lastPlayed = g0.lastPlayed ∧
      (gameFinishedUpdate "2024-01-01" 0 instA).totalPlayTime.getD 0
        = g0.totalPlayTime.getD 0 ∧
      (∀ k2, histLookup ((gameFinishedUpdate "2024-01-01" 0 instA).playHistory.getD []) k2
        = histLookup (g0.playHistory.getD []) k2) :=
  ⟨by decide,
   C3_zero_event_preserves_views "2024-01-01" "a" [instA]
     (gameFinishedUpdate "2024-01-01" 0 instA) (by decide)⟩

/-! ## The ordered view and the persistence round-trip (claims C5, C6, C10) -/

theorem sortInstances_sorted (X : List GameInstance) : SortedInst (sortInstances X) :=
  List.sorted_insertionSort instLe X

theorem applyGameFinished_preserves_fields (k iid : String) (d : Nat)
    (x : GameInstance) :
    (if x.id == iid then gameFinishedUpdate k d x else x).lastPlayed = x.lastPlayed ∧
    (if x.id == iid then gameFinishedUpdate k d x else x).id = x.id := by
  split <;> exact ⟨rfl, rfl⟩

/-- Claim C5: every catalogue state an operation produces has its ordered view
sorted by `lastPlayed` descending (never-played entries, absent or 0, after
all others) with ties broken by `id` descending: `handleUpdateInstances` (the
route of every form edit, creation, deletion and batch commit), the loader,
the play-session event applied to a sorted state, and a launch. -/
theorem C5_ordered_view_sorted :
    (∀ X, SortedInst (handleUpdateInstances X).1) ∧
    (∀ p, SortedInst (loadInstancesData p)) ∧
    (∀ k iid d l, SortedInst l → SortedInst (applyGameFinished k iid d l)) ∧
    (∀ res now inst l, SortedInst l →
      SortedInst (handleLaunch res now inst l).1) := by
  refine ⟨fun X => sortInstances_sorted X, ?_, ?_, ?_⟩
  · intro p
    cases p with
    | seq data => exact sortInstances_sorted data
    | nonSeq => exact List.sorted_nil
  · intro k iid d l hl
    unfold applyGameFinished
    refine List.Pairwise.map _ ?_ hl
    intro a b hab
    have ha := applyGameFinished_preserves_fields k iid d a
    have hb := applyGameFinished_preserves_fields k iid d b
    unfold instLe at hab ⊢
    rw [ha.1, ha.2, hb.1, hb.2]
    exact hab
  · intro res now inst l hl
    cases res with
    | error e => exact hl
    | ok pid => exact sortInstances_sorted _

/-- Witness for C5 at concrete inputs. -/
theorem C5_ordered_view_sorted_witness :
    SortedInst (handleUpdateInstances [instA, instB, instC]).1 ∧
    SortedInst (loadInstancesData Persisted.nonSeq) ∧
    SortedInst [instB, instA] ∧
    SortedInst (applyGameFinished "2024-01-01" "a" 3 [instB, instA]) ∧
    SortedInst (handleLaunch (Except.error "boom") 9 instA [instB, instA]).1 :=
  ⟨C5_ordered_view_sorted.1 [instA, instB, instC],
   C5_ordered_view_sorted.2.1 Persisted.nonSeq,
   by decide,
   C5_ordered_view_sorted.2.2.1 "2024-01-01" "a" 3 [instB, instA] (by decide),
   C5_ordered_view_sorted.2.2.2 (Except.error "boom") 9 instA [instB, instA]
     (by decide)⟩

/-- Claim C6: persisting a catalogue and loading it back yields exactly the
sorted catalogue (`load(save(X)) = sort(X)`, the loader applying the ordering
rule to the losslessly round-tripped payload), and a persisted payload that is
not a sequence resets the catalogue to empty. -/
theorem C6_save_load_roundtrip :
    (∀ X, loadInstancesData (handleUpdateInstances X).2 = sortInstances X) ∧
    loadInstancesData Persisted.nonSeq = [] := by
  constructor
  · intro X
    show sortInstances (sortInstances X) = sortInstances X
    exact List.Sorted.insertionSort_eq (List.sorted_insertionSort instLe X)
  · rfl

/-- Claim C10: a failed launch leaves the catalogue untouched and triggers no
persistence write; a successful one sets the launched instance's `lastPlayed`
to the current time and hands the re-sorted list to the store (which persists
it), every other instance surviving unchanged. -/
theorem C10_launch_failure_no_mutation (err : String) (now : Nat)
    (inst : GameInstance) (l : List GameInstance) :
    (handleLaunch (Except.error err) now inst l = (l, none)) ∧
    ∀ pid : Nat,
      ((handleLaunch (Except.ok pid) now inst l).2
          = some (Persisted.seq (handleLaunch (Except.ok pid) now inst l).1) ∧
       SortedInst (handleLaunch (Except.ok pid) now inst l).1 ∧
       (handleLaunch (Except.ok pid) now inst l).1.length = l.length ∧
       (∀ g ∈ l, g.id ≠ inst.id →
         g ∈ (handleLaunch (Except.ok pid) now inst l).1) ∧
       (∀ g ∈ l, g.id = inst.id →
         { g with lastPlayed := some now }
           ∈ (handleLaunch (Except.ok pid) now inst l).1)) := by
  refine ⟨rfl, ?_⟩
  intro pid
  have hperm : (handleLaunch (Except.ok pid) now inst l).1.Perm
      (l.map (fun i => if i.id == inst.id then { i with lastPlayed := some now } else i)) := by
    show (sortInstances (List.insertionSort timeLe _)).Perm _
    exact (List.perm_insertionSort instLe _).trans (List.perm_insertionSort timeLe _)
  refine ⟨rfl, sortInstances_sorted _, ?_, ?_, ?_⟩
  · rw [hperm.length_eq, List.length_map]
  · intro g hg hne
    rw [hperm.mem_iff]
    refine List.mem_map.mpr ⟨g, hg, ?_⟩
    rw [if_neg]
    simp [hne]
  · intro g hg heq
    rw [hperm.mem_iff]
    refine List.mem_map.mpr ⟨g, hg, ?_⟩
    rw [if_pos]
    simp [heq]

/-- Witness for C10 at concrete inputs. -/
theorem C10_launch_failure_no_mutation_witness :
    handleLaunch (Except.error "boom") 42 instA [instA, instB] = ([instA, instB], none) ∧
    instB ∈ (handleLaunch (Except.ok 7) 42 instA [instA, instB]).1 ∧
    { instA with lastPlayed := some 42 }
      ∈ (handleLaunch (Except.ok 7) 42 instA [instA, instB]).1 :=
  ⟨(C10_launch_failure_no_mutation "boom" 42 instA [instA, instB]).1,
   (((C10_launch_failure_no_mutation "boom" 42 instA [instA, instB]).2 7).2.2.2.1)
     instB (by decide) (by decide),
   (((C10_launch_failure_no_mutation "boom" 42 instA [instA, instB]).2 7).2.2.2.2)
     instA (by decide) (by decide)⟩

/-! ## The playtime invariant (claim C4) -/

theorem mem_sortInstances (g : GameInstance) (l : List GameInstance) :
    g ∈ sortInstances l ↔ g ∈ l :=
  (List.perm_insertionSort instLe l).mem_iff

theorem histSum_cons (a : String × Nat) (t : List (String × Nat)) :
    histSum (a :: t) = a.2 + histSum t := by
  simp [histSum]

theorem keys_histAssign_nodup (h : List (String × Nat)) (k : String) (v : Nat)
    (hn : (h.map (fun p => p.1)).Nodup) :
    ((histAssign h k v).map (fun p => p.1)).Nodup := by
  cases hany : h.any (fun p => p.1 == k) with
  | true =>
    rw [histAssign_eq_overwrite _ _ _ hany]
    have hkeys : (h.map (fun p => if p.1 = k then (k, v) else p)).map (fun p => p.1)
        = h.map (fun p => p.1) := by
      rw [List.map_map]
      apply List.map_congr_left
      intro p _
      by_cases hpk : p.1 = k <;> simp [hpk]
    rw [hkeys]
    exact hn
  | false =>
    rw [histAssign_eq_append _ _ _ hany]
    have hk : k ∉ h.map (fun p => p.1) := by
      intro hmem
      rcases List.mem_map.mp hmem with ⟨p, hp, hpk⟩
      have hall := List.any_eq_false.mp hany p hp
      exact hall (by simp [hpk])
    simp [List.nodup_append, hn, hk]

theorem histSum_overwrite (h : List (String × Nat)) (k : String) (d : Nat)
    (hn : (h.map (fun p => p.1)).Nodup)
    (hin : h.any (fun p => p.1 == k) = true) :
    histSum (h.map (fun p => if p.1 = k then (k, histLookup h k + d) else p))
      = histSum h + d := by
  induction h with
  | nil => exact absurd hin (by simp)
  | cons a t ih =>
    rw [List.map_cons, List.nodup_cons] at hn
    by_cases hak : a.1 = k
    · have hknot : k ∉ t.map (fun p => p.1) := hak ▸ hn.1
      have ht : t.map (fun p => if p.1 = k then (k, histLookup (a :: t) k + d) else p)
          = t := by
        have : ∀ p ∈ t, (if p.1 = k then (k, histLookup (a :: t) k + d) else p) = p := by
          intro p hp
          rw [if_neg]
          intro hpk
          exact hknot (List.mem_map.mpr ⟨p, hp, hpk⟩)
        calc t.map _ = t.map id := List.map_congr_left this
          _ = t := List.map_id t
      rw [List.map_cons, if_pos hak, ht, histLookup_cons, if_pos hak,
        histSum_cons, histSum_cons]
      omega
    · have hat : t.any (fun p => p.1 == k) = true := by
        rw [List.any_cons] at hin
        simpa [hak] using hin
      have hlk : histLookup (a :: t) k = histLookup t k := by
        rw [histLookup_cons, if_neg hak]
      rw [List.map_cons, if_neg hak, hlk, histSum_cons,
        ih hn.2 hat, histSum_cons]
      omega

theorem histSum_assign_add (h : List (String × Nat)) (k : String) (d : Nat)
    (hn : (h.map (fun p => p.1)).Nodup) :
    histSum (histAssign h k (histLookup h k + d)) = histSum h + d := by
  cases hany : h.any (fun p => p.1 == k) with
  | true =>
    rw [histAssign_eq_overwrite _ _ _ hany]
    exact histSum_overwrite h k d hn hany
  | false =>
    rw [histAssign_eq_append _ _ _ hany,
      histLookup_zero_of_absent _ _ hany]
    simp [histSum]

/-- `PlaytimeWF` only looks at the two playtime fields. -/
theorem playtimeWF_of_fields (g g' : GameInstance)
    (ht : g.totalPlayTime = g'.totalPlayTime)
    (hh : g.playHistory = g'.playHistory) (hwf : PlaytimeWF g') : PlaytimeWF g := by
  unfold PlaytimeWF at hwf ⊢
  rw [ht, hh]
  exact hwf

theorem playtimeWF_gameFinishedUpdate (k : String) (d : Nat) (g : GameInstance)
    (hg : PlaytimeWF g) : PlaytimeWF (gameFinishedUpdate k d g) := by
  unfold PlaytimeWF at hg
  cases ht : g.totalPlayTime with
  | none =>
    cases hh : g.playHistory with
    | none =>
      unfold PlaytimeWF gameFinishedUpdate
      rw [ht, hh]
      simp [histAssign, histSum, histLookup]
    | some h =>
      rw [ht, hh] at hg
      exact hg.elim
  | some t =>
    cases hh : g.playHistory with
    | none =>
      rw [ht, hh] at hg
      exact hg.elim
    | some h =>
      rw [ht, hh] at hg
      unfold PlaytimeWF gameFinishedUpdate
      rw [ht, hh]
      refine ⟨?_, ?_⟩
      · show t + d = histSum (histAssign ((some h).getD []) k
          (histLookup ((some h).getD []) k + d))
        rw [show (some h).getD [] = h from rfl,
          histSum_assign_add h k d hg.2, hg.1]
      · show ((histAssign ((some h).getD []) k
          (histLookup ((some h).getD []) k + d)).map (fun p => p.1)).Nodup
        exact keys_histAssign_nodup _ _ _ hg.2

theorem handleSaveCreate_some (now : Nat) (f : FormData) (l l2 : List GameInstance)
    (p : Persisted) (h : handleSaveCreate now f l = some (l2, p)) :
    ∃ nm ex, f.name = some nm ∧ f.executablePath = some ex ∧
      l2 = sortInstances (l ++ [createdInstance now nm ex f]) := by
  unfold handleSaveCreate at h
  split at h
  · rename_i nm ex hfn hfe
    split at h
    · exact absurd h (by simp)
    · exact ⟨nm, ex, hfn, hfe, (congrArg Prod.fst (Option.some.inj h)).symm⟩
  · exact absurd h (by simp)

theorem handleSaveEdit_some (sel : String) (f : FormData) (l l2 : List GameInstance)
    (p : Persisted) (h : handleSaveEdit sel f l = some (l2, p)) :
    l2 = sortInstances (l.map (fun i =>
      if i.id == sel then mergeFormData i f else i)) := by
  unfold handleSaveEdit at h
  split at h
  · split at h
    · exact absurd h (by simp)
    · exact (congrArg Prod.fst (Option.some.inj h)).symm
  · exact absurd h (by simp)

theorem handleConfirmBatchImport_some (ids : Nat → String) (items : List BatchItem)
    (l l2 : List GameInstance) (p : Persisted)
    (h : handleConfirmBatchImport ids items l = some (l2, p)) :
    l2 = sortInstances (l ++ (items.filter (fun i => i.selected)).enum.map
      (fun q => batchInstanceOf (ids q.1) q.2)) := by
  unfold handleConfirmBatchImport at h
  dsimp only at h
  split at h
  · exact absurd h (by simp)
  · exact (congrArg Prod.fst (Option.some.inj h)).symm

theorem playtimeWF_sum (g : GameInstance) (hwf : PlaytimeWF g) :
    ∀ t h, g.totalPlayTime = some t → g.playHistory = some h → t = histSum h := by
  intro t h ht hh
  unfold PlaytimeWF at hwf
  rw [ht, hh] at hwf
  exact hwf.1

theorem step_preserves_playtimeWF {l l2 : List GameInstance} (hstep : Step l l2)
    (hwf : ∀ g ∈ l, PlaytimeWF g) : ∀ g ∈ l2, PlaytimeWF g := by
  cases hstep with
  | create now f la lb pp hsave =>
    rcases handleSaveCreate_some now f _ _ _ hsave with ⟨nm, ex, _, _, hl2⟩
    subst hl2
    intro g hg
    rw [mem_sortInstances] at hg
    rcases List.mem_append.mp hg with hg | hg
    · exact hwf g hg
    · rw [List.mem_singleton] at hg
      subst hg
      simp [PlaytimeWF, createdInstance, histSum]
  | editSave sel f la lb pp hf hsave =>
    have hl2 := handleSaveEdit_some sel f _ _ _ hsave
    subst hl2
    intro g hg
    rw [mem_sortInstances] at hg
    rcases List.mem_map.mp hg with ⟨i, hi, hfg⟩
    by_cases hc : (i.id == sel) = true
    · rw [if_pos hc] at hfg
      subst hfg
      rcases hf with ⟨hft, hfh⟩ | ⟨t, hh, hft, hfh, hsum, hnd⟩
      · refine playtimeWF_of_fields _ i ?_ ?_ (hwf i hi)
        · show (f.totalPlayTime.or i.totalPlayTime) = i.totalPlayTime
          rw [hft]; rfl
        · show (f.playHistory.or i.playHistory) = i.playHistory
          rw [hfh]; rfl
      · unfold PlaytimeWF
        show (match (f.totalPlayTime.or i.totalPlayTime),
            (f.playHistory.or i.playHistory) with
          | none, none => True
          | some t, some h => t = histSum h ∧ (h.map (fun p => p.1)).Nodup
          | _, _ => False)
        rw [hft, hfh]
        exact ⟨hsum, hnd⟩
    · rw [if_neg hc] at hfg
      subst hfg
      exact hwf i hi
  | launch res now inst =>
    cases res with
    | error e =>
      intro g hg
      exact hwf g hg
    | ok pid =>
      intro g hg
      rw [show (handleLaunch (Except.ok pid) now inst l).1
          = sortInstances (List.insertionSort timeLe (l.map (fun i =>
            if i.id == inst.id then { i with lastPlayed := some now } else i)))
          from rfl, mem_sortInstances,
        (List.perm_insertionSort timeLe _).mem_iff] at hg
      rcases List.mem_map.mp hg with ⟨i, hi, hfg⟩
      by_cases hc : (i.id == inst.id) = true
      · rw [if_pos hc] at hfg
        subst hfg
        exact playtimeWF_of_fields _ i rfl rfl (hwf i hi)
      · rw [if_neg hc] at hfg
        subst hfg
        exact hwf i hi
  | sessionEnd k iid d la =>
    intro g hg
    rcases List.mem_map.mp hg with ⟨i, hi, hfg⟩
    by_cases hc : (i.id == iid) = true
    · rw [if_pos hc] at hfg
      subst hfg
      exact playtimeWF_gameFinishedUpdate k d i (hwf i hi)
    · rw [if_neg hc] at hfg
      subst hfg
      exact hwf i hi
  | batchCommit ids items la lb pp hsave =>
    have hl2 := handleConfirmBatchImport_some ids items _ _ _ hsave
    subst hl2
    intro g hg
    rw [mem_sortInstances] at hg
    rcases List.mem_append.mp hg with hg | hg
    · exact hwf g hg
    · rcases List.mem_map.mp hg with ⟨q, _, hfg⟩
      subst hfg
      simp [PlaytimeWF, batchInstanceOf]

/-- Claim C4: along every legitimate update path (creations, legitimate
edit-saves, launches, play-session events, batch-import commits in any order
and number), every instance keeps well-formed play statistics; in particular
whenever both `totalPlayTime` and `playHistory` are present, `totalPlayTime`
equals the sum of all `playHistory` values. -/
theorem C4_playtime_invariant (s s2 : List GameInstance)
    (hsteps : Relation.ReflTransGen Step s s2)
    (hwf : ∀ g ∈ s, PlaytimeWF g) :
    ∀ g ∈ s2, PlaytimeWF g ∧
      ∀ t h, g.totalPlayTime = some t → g.playHistory = some h →
        t = histSum h := by
  induction hsteps with
  | refl =>
    intro g hg
    exact ⟨hwf g hg, playtimeWF_sum g (hwf g hg)⟩
  | tail hab hbc ih =>
    intro g hg
    have hwfb := step_preserves_playtimeWF hbc (fun g2 hg2 => (ih g2 hg2).1)
    exact ⟨hwfb g hg, playtimeWF_sum g (hwfb g hg)⟩

/-- Witness for C4: one play-session event on a freshly created instance. -/
theorem C4_playtime_invariant_witness :
    PlaytimeWF (gameFinishedUpdate "2024-01-01" 5 instA) ∧
    (5 : Nat) = histSum [("2024-01-01", 5)] :=
  have happ := C4_playtime_invariant [instA]
    (applyGameFinished "2024-01-01" "a" 5 [instA])
    (Relation.ReflTransGen.single (Step.sessionEnd "2024-01-01" "a" 5 [instA]))
    (by decide) (gameFinishedUpdate "2024-01-01" 5 instA) (by decide)
  ⟨happ.1, happ.2 5 [("2024-01-01", 5)] rfl rfl⟩

/-! ## Concurrent edit-save and play-session event (claim C1) -/

/-- Claim C1 counterexample: with the settlement order "event first, edit-save
second", the event's write is lost.  Start from the form-created instance
`instA` (`totalPlayTime = some 0`, `playHistory = some []`); the edit form
snapshot is captured from that state and renames it.  The event for 50 seconds
settles first; the edit-save then spreads the stale snapshot over the fresh
state: the rename survives, but `totalPlayTime` is back to 0 and `playHistory`
to empty — not the event's 50. -/
theorem C1_concurrent_edit_counterexample :
    applyGameFinished "2024-01-01" "a" 50 [instA]
      = [{ instA with totalPlayTime := some 50, playHistory := some [("2024-01-01", 50)] }] ∧
    handleSaveEdit "a" (setFormName (handleStartEdit instA) "new")
        (applyGameFinished "2024-01-01" "a" 50 [instA])
      = some ([{ instA with name := "new" }],
          Persisted.seq [{ instA with name := "new" }]) ∧
    ({ instA with name := "new" }).totalPlayTime = some 0 ∧
    ({ instA with name := "new" }).playHistory = some [] ∧
    ¬ ((some 0 : Option Nat) = some 50) :=
  ⟨by decide, by decide, rfl, rfl, by decide⟩

/-- Claim C1 (amended): in the settlement order "edit-save first, event
second" neither write is lost — the event handler applies its update to the
latest in-memory state, so the renamed instance receives the playtime merge.
(In the opposite order the edit-save spreads the form snapshot captured at
edit start over the fresh state and overwrites the event's
`totalPlayTime`/`playHistory` whenever the snapshot carries those keys, as
the counterexample shows.) -/
theorem C1_edit_then_event (l : List GameInstance) (A : GameInstance)
    (sel nm todayKey : String) (d : Nat) (f : FormData)
    (l2 : List GameInstance) (p : Persisted)
    (hA : A ∈ l) (hAid : A.id = sel)
    (hnodup : (l.map (fun g => g.id)).Nodup)
    (hfid : f.id = some sel) (hfname : f.name = some nm)
    (hsave : handleSaveEdit sel f l = some (l2, p)) :
    (∃ g ∈ applyGameFinished todayKey sel d l2, g.id = sel) ∧
    ∀ g ∈ applyGameFinished todayKey sel d l2, g.id = sel →
      g.name = nm ∧
      g.totalPlayTime
        = some ((f.totalPlayTime.or A.totalPlayTime).getD 0 + d) ∧
      g.playHistory = some (histAssign
        ((f.playHistory.or A.playHistory).getD []) todayKey
        (histLookup ((f.playHistory.or A.playHistory).getD []) todayKey + d)) := by
  have hl2 := handleSaveEdit_some sel f l l2 p hsave
  have hmergeid : ∀ g0, (mergeFormData g0 f).id = sel := by
    intro g0
    show (f.id.getD g0.id) = sel
    rw [hfid]
    rfl
  constructor
  · have hmem : mergeFormData A f ∈ l2 := by
      rw [hl2, mem_sortInstances]
      refine List.mem_map.mpr ⟨A, hA, ?_⟩
      rw [if_pos (by simp [hAid])]
    refine ⟨_, List.mem_map.mpr ⟨mergeFormData A f, hmem, rfl⟩, ?_⟩
    rw [if_pos (by simp [hmergeid A])]
    exact hmergeid A
  · intro g hg hid
    rcases List.mem_map.mp hg with ⟨g', hg', hfg⟩
    rw [hl2, mem_sortInstances] at hg'
    rcases List.mem_map.mp hg' with ⟨g0, hg0, hug⟩
    by_cases hc : (g0.id == sel) = true
    · rw [if_pos hc] at hug
      have hg0id : g0.id = sel := by simpa using hc
      have hg0A : g0 = A :=
        List.inj_on_of_nodup_map hnodup hg0 hA (by rw [hg0id, hAid])
      subst hg0A
      subst hug
      rw [if_pos (by simp [hmergeid g0])] at hfg
      subst hfg
      refine ⟨?_, rfl, rfl⟩
      show (f.name.getD g0.name) = nm
      rw [hfname]
      rfl
    · rw [if_neg hc] at hug
      subst hug
      by_cases hc2 : (g0.id == sel) = true
      · exact absurd hc2 hc
      · rw [if_neg hc2] at hfg
        subst hfg
        exact absurd (by simp [hid]) hc

/-- Witness for the amended C1 at the concrete scenario of the spec. -/
theorem C1_edit_then_event_witness :
    (gameFinishedUpdate "2024-01-01" 50 { instA with name := "new" }).name
      = "new" ∧
    (gameFinishedUpdate "2024-01-01" 50 { instA with name := "new" }).totalPlayTime
      = some 50 :=
  have happ := (C1_edit_then_event [instA] instA "a" "new" "2024-01-01" 50
      (setFormName (handleStartEdit instA) "new")
      [{ instA with name := "new" }]
      (Persisted.seq [{ instA with name := "new" }])
      (by decide) rfl (by decide) rfl rfl (by decide)).2
      (gameFinishedUpdate "2024-01-01" 50 { instA with name := "new" })
      (by decide) rfl
  ⟨happ.1, happ.2.1⟩

/-! ## Batch-import commit (claim C7) -/

/-- Claim C7 counterexample: the commit's fallback is JS `||` truthiness, not
`??` nullish coalescing — a selected item whose `manualInfo.name` is the empty
string commits with the matched result's title, whereas the claim's
`manualInfo.name ?? matchedResult.title ?? dirName` keeps the empty string. -/
theorem C7_batch_name_counterexample :
    (handleConfirmBatchImport (fun n => toString n) [itemM] []).map
      (fun r => r.1.map (fun g => g.name)) = some ["T"] ∧
    batchNameSpec itemM = "" ∧
    ¬ (("T" : String) = "") :=
  ⟨by decide, rfl, by decide⟩

/-- Claim C7 (amended): batch-import commit builds one new `GameInstance` for
exactly each selected item (unselected items contribute nothing), with
`name` and `backgroundImage` falling through `manualInfo`, then the matched
result, then (for the name) the directory name by JS `||` truthiness (an
empty string also falls through), `executablePath = selectedExec`,
`bottleName` from the item, and uninitialized play statistics; the whole
batch is appended to the prior catalogue in one single `replace` call; a
commit with zero selected items is rejected and leaves the catalogue
unchanged. -/
theorem C7_batch_commit (ids : Nat → String) (items : List BatchItem)
    (instances : List GameInstance) :
    (items.filter (fun i => i.selected) = [] →
      handleConfirmBatchImport ids items instances = none) ∧
    (∀ sel, sel = items.filter (fun i => i.selected) → sel ≠ [] →
      ∃ news, handleConfirmBatchImport ids items instances
          = some (handleUpdateInstances (instances ++ news)) ∧
        news.length = sel.length ∧
        ∀ n (hn : n < sel.length) (hn2 : n < news.length),
          (news.get ⟨n, hn2⟩).name
            = jsOrStr (jsOrOpt (sel.get ⟨n, hn⟩).manualInfo.name
                ((sel.get ⟨n, hn⟩).matchedResult.map (fun r => r.title)))
              (sel.get ⟨n, hn⟩).dirName ∧
          (news.get ⟨n, hn2⟩).backgroundImage
            = jsOrOpt (sel.get ⟨n, hn⟩).manualInfo.backgroundImage
              ((sel.get ⟨n, hn⟩).matchedResult.map (fun r => r.cover)) ∧
          (news.get ⟨n, hn2⟩).executablePath = (sel.get ⟨n, hn⟩).selectedExec ∧
          (news.get ⟨n, hn2⟩).bottleName = (sel.get ⟨n, hn⟩).bottleName ∧
          (news.get ⟨n, hn2⟩).id = ids n ∧
          (news.get ⟨n, hn2⟩).totalPlayTime = none ∧
          (news.get ⟨n, hn2⟩).playHistory = none ∧
          (news.get ⟨n, hn2⟩).lastPlayed = none) := by
  constructor
  · intro hsel
    unfold handleConfirmBatchImport
    rw [hsel]
    rfl
  · intro sel hseldef hnonempty
    subst hseldef
    have hz : ¬ (((items.filter (fun i => i.selected)).length == 0) = true) := by
      simp only [beq_iff_eq, List.length_eq_zero]
      exact hnonempty
    refine ⟨(items.filter (fun i => i.selected)).enum.map
      (fun q => batchInstanceOf (ids q.1) q.2), ?_, ?_, ?_⟩
    · unfold handleConfirmBatchImport
      dsimp only
      rw [if_neg hz]
    · rw [List.length_map, List.enum_length]
    · intro n hn hn2
      have hget : ((items.filter (fun i => i.selected)).enum.map
            (fun q => batchInstanceOf (ids q.1) q.2)).get ⟨n, hn2⟩
          = batchInstanceOf (ids n)
            ((items.filter (fun i => i.selected)).get ⟨n, hn⟩) := by
        simp [List.get_eq_getElem, List.getElem_map, List.getElem_enum]
      rw [hget]
      exact ⟨rfl, rfl, rfl, rfl, rfl, rfl, rfl, rfl⟩

/-- Witness for the amended C7: three items with `selected = [true, false,
true]` commit (two new instances, appended to a one-element prior catalogue);
a batch with nothing selected is rejected. -/
theorem C7_batch_commit_witness :
    handleConfirmBatchImport (fun n => toString n) [itemM2] [instA] = none ∧
    handleConfirmBatchImport (fun n => toString n) [itemM, itemM2, itemM3]
      [instA] ≠ none := by
  have h1 := (C7_batch_commit (fun n => toString n) [itemM2] [instA]).1
    (by decide)
  have h2 := (C7_batch_commit (fun n => toString n) [itemM, itemM2, itemM3]
    [instA]).2 [itemM, itemM3] (by decide) (by decide)
  rcases h2 with ⟨news, heq, hlen, hfields⟩
  refine ⟨h1, ?_⟩
  rw [heq]
  simp

/-! ## The batch matching run (claim C8) -/

theorem outcomeUpd_id (getKeywords : String → Except Unit (List String))
    (search : String → String → Except Unit (List SearchResult))
    (a x : BatchItem) : (outcomeUpd getKeywords search a x).id = x.id := by
  unfold outcomeUpd
  cases getKeywords a.selectedExec with
  | error e => rfl
  | ok kws =>
    cases hk : (kws.length == 0) with
    | true => simp [hk]
    | false =>
      simp only [hk, Bool.false_eq_true, if_false]
      cases fetchGameResults search kws <;> rfl

theorem matchOne_eq (getKeywords : String → Except Unit (List String))
    (search : String → String → Except Unit (List SearchResult))
    (cur : List BatchItem) (item : BatchItem) :
    matchOne getKeywords search cur item
      = updateBatchItem cur item.id (outcomeUpd getKeywords search item) := by
  unfold matchOne outcomeUpd
  cases getKeywords item.selectedExec with
  | error e => rfl
  | ok kws =>
    cases hk : (kws.length == 0) with
    | true => simp [hk]
    | false =>
      simp only [hk, Bool.false_eq_true, if_false]
      cases fetchGameResults search kws <;> rfl

theorem foldl_matchOne (getKeywords : String → Except Unit (List String))
    (search : String → String → Except Unit (List SearchResult))
    (S : List BatchItem) (hS : (S.map (fun i => i.id)).Nodup) :
    ∀ cur : List BatchItem,
    S.foldl (matchOne getKeywords search) cur
      = cur.map (fun x => match S.find? (fun a => a.id == x.id) with
          | some a => outcomeUpd getKeywords search a x
          | none => x) := by
  induction S with
  | nil =>
    intro cur
    simp
  | cons a S2 ih =>
    intro cur
    rw [List.map_cons, List.nodup_cons] at hS
    rw [List.foldl_cons, matchOne_eq, ih hS.2]
    rw [updateBatchItem, List.map_map]
    apply List.map_congr_left
    intro x _
    dsimp only [Function.comp]
    rw [List.find?_cons]
    by_cases hxa : x.id = a.id
    · rw [if_pos (show (x.id == a.id) = true by simp [hxa])]
      rw [outcomeUpd_id getKeywords search a x]
      have hnone : S2.find? (fun b => b.id == x.id) = none := by
        apply List.find?_eq_none.mpr
        intro b hb
        simp only [beq_iff_eq, hxa]
        intro hba
        exact hS.1 (List.mem_map.mpr ⟨b, hb, hba⟩)
      rw [hnone, show ((a : BatchItem).id == x.id) = true by simp [hxa]]
    · rw [if_neg (show ¬ (x.id == a.id) = true by simp [hxa])]
      rw [show ((a : BatchItem).id == x.id) = false by
        simp only [beq_eq_false_iff_ne]; exact fun h => hxa h.symm]

theorem find?_id_of_mem (S : List BatchItem) (y : BatchItem) (hy : y ∈ S)
    (huniq : ∀ b ∈ S, b.id = y.id → b = y) :
    S.find? (fun a => a.id == y.id) = some y := by
  induction S with
  | nil => cases hy
  | cons b S2 ih =>
    by_cases hby : b.id = y.id
    · have hbeq : b = y := huniq b (List.mem_cons_self b S2) hby
      subst hbeq
      exact List.find?_cons_of_pos _ (by simp)
    · rw [List.find?_cons_of_neg _ (by simp [hby])]
      have hy2 : y ∈ S2 := by
        rcases List.mem_cons.mp hy with rfl | h
        · exact absurd rfl hby
        · exact h
      exact ih hy2 (fun b2 hb2 => huniq b2 (List.mem_cons_of_mem _ hb2))

theorem outcomeUpd_matching_eq_view
    (getKeywords : String → Except Unit (List String))
    (search : String → String → Except Unit (List SearchResult))
    (y : BatchItem) :
    outcomeUpd getKeywords search y { y with status := BatchStatus.matching }
      = matchingOutcomeView getKeywords search y := by
  unfold outcomeUpd matchingOutcomeView
  cases getKeywords y.selectedExec with
  | error e => rfl
  | ok kws =>
    cases hk : (kws.length == 0) with
    | true => simp [hk]
    | false => simp only [hk, Bool.false_eq_true, if_false]

theorem markMatching_eq (batchItems : List BatchItem)
    (hnodup : (batchItems.map (fun i => i.id)).Nodup) :
    markMatching batchItems = batchItems.map (fun it =>
      if shouldMatch it then { it with status := BatchStatus.matching }
      else it) := by
  unfold markMatching
  apply List.map_congr_left
  intro it hit
  by_cases hm : shouldMatch it = true
  · rw [if_pos hm, if_pos]
    exact List.any_eq_true.mpr ⟨it, List.mem_filter.mpr ⟨hit, hm⟩, by simp⟩
  · rw [if_neg hm, if_neg]
    intro hany
    rcases List.any_eq_true.mp hany with ⟨i, hi, hieq⟩
    rcases List.mem_filter.mp hi with ⟨hi2, hish⟩
    have : i = it := List.inj_on_of_nodup_map hnodup hi2 hit (by simpa using hieq)
    subst this
    exact hm hish

/-- Claim C8: starting a batch-matching run processes exactly the selected
items in status `pending` or `unmatched`: each such item is first set to
`matching`, and ends `unmatched` with empty `searchResults` when keyword
extraction fails or yields no keywords or the aggregation is empty (never
`matched`), and ends `matched` with `searchResults` set and `matchedResult`
defaulted to the first result when the aggregation is non-empty; unselected
items and already-`matched` items are untouched. -/
theorem C8_batch_matching (getKeywords : String → Except Unit (List String))
    (search : String → String → Except Unit (List SearchResult))
    (batchItems : List BatchItem)
    (hnodup : (batchItems.map (fun i => i.id)).Nodup) :
    markMatching batchItems = batchItems.map (fun it =>
      if shouldMatch it then { it with status := BatchStatus.matching }
      else it) ∧
    handleStartBatchMatching getKeywords search batchItems
      = batchItems.map (fun it =>
        if shouldMatch it then matchingOutcomeView getKeywords search it
        else it) := by
  have hSnodup : ((batchItems.filter shouldMatch).map (fun i => i.id)).Nodup :=
    List.Nodup.sublist ((List.filter_sublist batchItems).map _) hnodup
  refine ⟨markMatching_eq batchItems hnodup, ?_⟩
  unfold handleStartBatchMatching
  rw [foldl_matchOne getKeywords search _ hSnodup,
    markMatching_eq batchItems hnodup, List.map_map]
  apply List.map_congr_left
  intro y hy
  by_cases hm : shouldMatch y = true
  · have huniq : ∀ b ∈ batchItems.filter shouldMatch, b.id = y.id → b = y := by
      intro b hb hbid
      rcases List.mem_filter.mp hb with ⟨hb2, _⟩
      exact List.inj_on_of_nodup_map hnodup hb2 hy hbid
    have hfind := find?_id_of_mem (batchItems.filter shouldMatch) y
      (List.mem_filter.mpr ⟨hy, hm⟩) huniq
    show (match (batchItems.filter shouldMatch).find? (fun a => a.id ==
        (if shouldMatch y then { y with status := BatchStatus.matching }
          else y).id) with
      | some a => outcomeUpd getKeywords search a
          (if shouldMatch y then { y with status := BatchStatus.matching }
            else y)
      | none => (if shouldMatch y then { y with status := BatchStatus.matching }
            else y))
      = if shouldMatch y then matchingOutcomeView getKeywords search y else y
    rw [if_pos hm, if_pos hm]
    show (match (batchItems.filter shouldMatch).find?
        (fun a => a.id == y.id) with
      | some a => outcomeUpd getKeywords search a
          { y with status := BatchStatus.matching }
      | none => { y with status := BatchStatus.matching })
      = matchingOutcomeView getKeywords search y
    rw [hfind]
    exact outcomeUpd_matching_eq_view getKeywords search y
  · have hfind : (batchItems.filter shouldMatch).find?
        (fun a => a.id == y.id) = none := by
      apply List.find?_eq_none.mpr
      intro b hb
      rcases List.mem_filter.mp hb with ⟨hb2, hbsh⟩
      simp only [beq_iff_eq]
      intro hbid
      have : b = y := List.inj_on_of_nodup_map hnodup hb2 hy hbid
      subst this
      exact hm hbsh
    show (match (batchItems.filter shouldMatch).find? (fun a => a.id ==
        (if shouldMatch y then { y with status := BatchStatus.matching }
          else y).id) with
      | some a => outcomeUpd getKeywords search a
          (if shouldMatch y then { y with status := BatchStatus.matching }
            else y)
      | none => (if shouldMatch y then { y with status := BatchStatus.matching }
            else y))
      = if shouldMatch y then matchingOutcomeView getKeywords search y else y
    rw [if_neg hm, if_neg hm]
    show (match (batchItems.filter shouldMatch).find?
        (fun a => a.id == y.id) with
      | some a => outcomeUpd getKeywords search a y
      | none => y) = y
    rw [hfind]

/-- Witness for C8: a three-item batch (selected with keywords, selected with
no keywords, unselected) against concrete collaborators. -/
theorem C8_batch_matching_witness :
    markMatching [itemP, itemQ, itemR] = [itemP, itemQ, itemR].map (fun it =>
      if shouldMatch it then { it with status := BatchStatus.matching }
      else it) ∧
    handleStartBatchMatching gkW searchW [itemP, itemQ, itemR]
      = [itemP, itemQ, itemR].map (fun it =>
        if shouldMatch it then matchingOutcomeView gkW searchW it
        else it) :=
  C8_batch_matching gkW searchW [itemP, itemQ, itemR] (by decide)

/-! ## The metadata search aggregator (claim C9) -/

theorem firstOccKeys_cons (r : SearchResult) (rest : List SearchResult) :
    firstOccKeys (r :: rest)
      = resKey r :: (firstOccKeys rest).filter (fun k2 => !(k2 == resKey r)) := rfl

theorem lastValueByKey_cons (r : SearchResult) (rest : List SearchResult)
    (k : String) :
    lastValueByKey (r :: rest) k
      = match lastValueByKey rest k with
        | some v => some v
        | none => if resKey r == k then some r else none := rfl

theorem upsertByKey_fst_inv (acc : List (String × SearchResult)) (r : SearchResult)
    (hinv : ∀ p ∈ acc, p.1 = resKey p.2) :
    ∀ p ∈ upsertByKey acc r, p.1 = resKey p.2 := by
  intro p hp
  unfold upsertByKey at hp
  by_cases hany : (acc.any (fun q => q.1 == resKey r)) = true
  · rw [if_pos hany] at hp
    rcases List.mem_map.mp hp with ⟨q, hq, hfq⟩
    by_cases hqk : (q.1 == resKey r) = true
    · rw [if_pos hqk] at hfq
      subst hfq
      show q.1 = resKey r
      simpa using hqk
    · rw [if_neg hqk] at hfq
      subst hfq
      exact hinv q hq
  · rw [if_neg hany] at hp
    rcases List.mem_append.mp hp with hp | hp
    · exact hinv p hp
    · rw [List.mem_singleton] at hp
      subst hp
      rfl

theorem upsertByKey_keys (acc : List (String × SearchResult)) (r : SearchResult) :
    (upsertByKey acc r).map (fun p => p.1)
      = if acc.any (fun q => q.1 == resKey r) then acc.map (fun p => p.1)
        else acc.map (fun p => p.1) ++ [resKey r] := by
  unfold upsertByKey
  by_cases hany : (acc.any (fun q => q.1 == resKey r)) = true
  · rw [if_pos hany, if_pos hany, List.map_map]
    apply List.map_congr_left
    intro q _
    by_cases hq : (q.1 == resKey r) = true
    · simp [Function.comp, hq]
    · simp [Function.comp, hq]
  · rw [if_neg hany, if_neg hany, List.map_append]
    rfl

theorem anyKey_eq (acc : List (String × SearchResult)) (k : String) :
    (acc.map (fun p => p.1)).any (fun k2 => k2 == k)
      = acc.any (fun p => p.1 == k) := by
  induction acc with
  | nil => rfl
  | cons q Q ih => simp [List.any_cons, ih]

theorem upsertByKey_any (acc : List (String × SearchResult)) (r : SearchResult)
    (k : String) :
    (upsertByKey acc r).any (fun p => p.1 == k)
      = (acc.any (fun p => p.1 == k) || (resKey r == k)) := by
  rw [← anyKey_eq, upsertByKey_keys]
  by_cases hany : (acc.any (fun q => q.1 == resKey r)) = true
  · rw [if_pos hany, anyKey_eq]
    by_cases hrk : resKey r = k
    · subst hrk
      simp [hany]
    · have h1 : (resKey r == k) = false := by
        rw [beq_eq_false_iff_ne]; exact hrk
      simp [h1]
  · rw [if_neg hany, List.any_append, anyKey_eq]
    simp [List.any_cons]

theorem upsertByKey_keys_nodup (acc : List (String × SearchResult))
    (r : SearchResult) (hnd : (acc.map (fun p => p.1)).Nodup) :
    ((upsertByKey acc r).map (fun p => p.1)).Nodup := by
  rw [upsertByKey_keys]
  by_cases hany : (acc.any (fun q => q.1 == resKey r)) = true
  · rw [if_pos hany]; exact hnd
  · rw [if_neg hany]
    have hnotin : resKey r ∉ acc.map (fun p => p.1) := by
      intro hmem
      rcases List.mem_map.mp hmem with ⟨q, hq, hqk⟩
      exact hany (List.any_eq_true.mpr ⟨q, hq, by simp [hqk]⟩)
    simp [List.nodup_append, hnd, hnotin]

theorem upsert_comp_pred (r : SearchResult) (k : String) :
    ((fun p : String × SearchResult => p.1 == k)
      ∘ (fun p => if p.1 == resKey r then (p.1, r) else p))
    = (fun p : String × SearchResult => p.1 == k) := by
  funext q
  by_cases hq : (q.1 == resKey r) = true <;> simp [Function.comp, hq]

theorem find?_append_one (l : List (String × SearchResult))
    (x : String × SearchResult) (p : String × SearchResult → Bool)
    (hl : l.find? p = none) : (l ++ [x]).find? p = [x].find? p := by
  rw [List.find?_append, hl]
  rfl

theorem upsertByKey_find?_same (acc : List (String × SearchResult))
    (r : SearchResult) :
    (upsertByKey acc r).find? (fun p => p.1 == resKey r)
      = some (resKey r, r) := by
  unfold upsertByKey
  by_cases hany : (acc.any (fun q => q.1 == resKey r)) = true
  · rw [if_pos hany, List.find?_map, upsert_comp_pred]
    rcases List.any_eq_true.mp hany with ⟨q0, hq0, hq0k⟩
    have hsome : ∃ q, acc.find? (fun p => p.1 == resKey r) = some q := by
      cases hf : acc.find? (fun p => p.1 == resKey r) with
      | some q => exact ⟨q, rfl⟩
      | none => exact absurd (List.find?_eq_none.mp hf q0 hq0) (by simp [hq0k])
    rcases hsome with ⟨q, hq⟩
    have hqk := List.find?_some hq
    rw [hq]
    show some (if (q.1 == resKey r) = true then (q.1, r) else q)
      = some (resKey r, r)
    rw [if_pos hqk]
    have hq1 : q.1 = resKey r := by simpa using hqk
    rw [hq1]
  · rw [if_neg hany]
    have hanyf : (acc.any (fun q => q.1 == resKey r)) = false := by
      revert hany
      cases acc.any (fun q => q.1 == resKey r) <;> simp
    have hnone : acc.find? (fun p => p.1 == resKey r) = none := by
      apply List.find?_eq_none.mpr
      intro q hq hqk
      have hq2 : (acc.any (fun p => p.1 == resKey r)) = true :=
        List.any_eq_true.mpr ⟨q, hq, hqk⟩
      rw [hanyf] at hq2
      exact Bool.false_ne_true hq2
    rw [find?_append_one _ _ _ hnone]
    simp [List.find?_cons]

theorem upsertByKey_find?_other (acc : List (String × SearchResult))
    (r : SearchResult) (k : String) (hk : ¬ resKey r = k) :
    (upsertByKey acc r).find? (fun p => p.1 == k)
      = acc.find? (fun p => p.1 == k) := by
  unfold upsertByKey
  by_cases hany : (acc.any (fun q => q.1 == resKey r)) = true
  · rw [if_pos hany, List.find?_map, upsert_comp_pred]
    cases hf : acc.find? (fun p => p.1 == k) with
    | none => rfl
    | some q =>
      have hqk := List.find?_some hf
      have hq1 : q.1 = k := by simpa using hqk
      show some (if (q.1 == resKey r) = true then (q.1, r) else q) = some q
      rw [if_neg (show ¬ (q.1 == resKey r) = true by
        simp only [beq_iff_eq, hq1]
        exact fun h => hk h.symm)]
  · rw [if_neg hany, List.find?_append]
    have hx : List.find? (fun p => p.1 == k) [(resKey r, r)] = none := by
      have : ((resKey r, r).1 == k) = false := by
        rw [beq_eq_false_iff_ne]; exact hk
      simp [List.find?_cons, this]
    rw [hx]
    cases acc.find? (fun p => p.1 == k) <;> rfl

theorem foldl_upsert_char (l : List SearchResult) :
    ∀ acc : List (String × SearchResult),
    (acc.map (fun p => p.1)).Nodup →
    (∀ p ∈ acc, p.1 = resKey p.2) →
    ((l.foldl upsertByKey acc).map (fun p => p.1)
        = acc.map (fun p => p.1) ++ (firstOccKeys l).filter
          (fun k => !(acc.any (fun p => p.1 == k)))) ∧
    ((l.foldl upsertByKey acc).map (fun p => p.1)).Nodup ∧
    (∀ p ∈ l.foldl upsertByKey acc, p.1 = resKey p.2) ∧
    (∀ k, (l.foldl upsertByKey acc).find? (fun p => p.1 == k)
        = match lastValueByKey l k with
          | some v => some (k, v)
          | none => acc.find? (fun p => p.1 == k)) := by
  induction l with
  | nil =>
    intro acc hnd hinv
    refine ⟨by simp [firstOccKeys], hnd, hinv, ?_⟩
    intro k
    rfl
  | cons r rest ih =>
    intro acc hnd hinv
    have hnd' := upsertByKey_keys_nodup acc r hnd
    have hinv' := upsertByKey_fst_inv acc r hinv
    have IH := ih (upsertByKey acc r) hnd' hinv'
    rw [List.foldl_cons]
    refine ⟨?_, IH.2.1, IH.2.2.1, ?_⟩
    · rw [IH.1, upsertByKey_keys]
      have hpred : (fun k => !((upsertByKey acc r).any (fun p => p.1 == k)))
          = (fun k => (!(acc.any (fun p => p.1 == k))) && (!(k == resKey r))) := by
        funext k
        rw [upsertByKey_any]
        by_cases hrk : resKey r = k
        · subst hrk
          simp
        · have h1 : (resKey r == k) = false := by
            rw [beq_eq_false_iff_ne]; exact hrk
          have h2 : (k == resKey r) = false := by
            rw [beq_eq_false_iff_ne]; exact fun h => hrk h.symm
          simp [h1, h2]
      rw [hpred, firstOccKeys_cons, List.filter_cons, List.filter_filter]
      by_cases hany : (acc.any (fun q => q.1 == resKey r)) = true
      · rw [if_pos hany,
          if_neg (show ¬ ((!(acc.any (fun p => p.1 == resKey r))) = true) by
            simp [hany])]
      · rw [if_neg hany]
        have hanyf : (acc.any (fun q => q.1 == resKey r)) = false := by
          revert hany
          cases acc.any (fun q => q.1 == resKey r) <;> simp
        rw [if_pos (show (!(acc.any (fun p => p.1 == resKey r))) = true by
            simp [hanyf]),
          List.append_assoc]
        rfl
    · intro k
      rw [IH.2.2.2 k, lastValueByKey_cons]
      cases hlast : lastValueByKey rest k with
      | some v => rfl
      | none =>
        by_cases hrk : resKey r = k
        · rw [if_pos (by simp [hrk])]
          show (upsertByKey acc r).find? (fun p => p.1 == k) = some (k, r)
          rw [← hrk]
          exact upsertByKey_find?_same acc r
        · rw [if_neg (show ¬ ((resKey r == k) = true) by simp [hrk])]
          exact upsertByKey_find?_other acc r k hrk

theorem find?_values (assoc : List (String × SearchResult))
    (hinv : ∀ p ∈ assoc, p.1 = resKey p.2) (k : String) :
    (assoc.map (fun p => p.2)).find? (fun r => resKey r == k)
      = (assoc.find? (fun p => p.1 == k)).map (fun p => p.2) := by
  induction assoc with
  | nil => rfl
  | cons q Q ih =>
    have hq1 : q.1 = resKey q.2 := hinv q (List.mem_cons_self q Q)
    rw [List.map_cons, List.find?_cons, List.find?_cons, ← hq1]
    cases hqk : (q.1 == k) with
    | true => rfl
    | false => exact ih (fun p hp => hinv p (List.mem_cons_of_mem q hp))

/-- Claim C9 counterexample: deduplication identity is not the pair
(`title`, `source`) — the key is the concatenated string `title + source`, so
two results with different pairs ("ab","c") and ("a","bc") share the key
"abc" and collapse to one entry, while the pair-keyed dedup keeps both. -/
theorem C9_dedup_counterexample :
    mergedResults searchC9 ["x"] = [resAB, resA] ∧
    fetchGameResults searchC9 ["x"] = [resA] ∧
    dedupByPairSpec [resAB, resA] = [resAB, resA] ∧
    ¬ ((resAB.title, resAB.source) = (resA.title, resA.source)) :=
  ⟨by decide, by decide, by decide, by decide⟩

/-- Claim C9 (amended): the aggregator merges all per-request results (an
individual provider failure contributing an empty result without aborting the
aggregation) and deduplicates them by the concatenated string
`title + source` — so two results with identical title and source yield
exactly one entry — with last-write-wins on the kept value and first-seen key
order preserved in the output. -/
theorem C9_aggregator_dedup
    (search : String → String → Except Unit (List SearchResult))
    (keywords : List String) :
    fetchGameResults search keywords
      = fetchGameResults (fun kw src =>
          Except.ok (((search kw src).toOption).getD [])) keywords ∧
    ((fetchGameResults search keywords).map resKey).Nodup ∧
    ((fetchGameResults search keywords).map resKey
      = firstOccKeys (mergedResults search keywords)) ∧
    (∀ k, (fetchGameResults search keywords).find? (fun r => resKey r == k)
      = lastValueByKey (mergedResults search keywords) k) := by
  have hchar := foldl_upsert_char (mergedResults search keywords) []
    (by simp) (by simp)
  have hkeys : (fetchGameResults search keywords).map resKey
      = ((mergedResults search keywords).foldl upsertByKey []).map
          (fun p => p.1) := by
    unfold fetchGameResults
    rw [List.map_map]
    apply List.map_congr_left
    intro p hp
    exact (hchar.2.2.1 p hp).symm
  refine ⟨rfl, ?_, ?_, ?_⟩
  · rw [hkeys]
    exact hchar.2.1
  · rw [hkeys, hchar.1]
    simp
  · intro k
    unfold fetchGameResults
    rw [find?_values _ hchar.2.2.1 k, hchar.2.2.2 k]
    cases lastValueByKey (mergedResults search keywords) k <;> rfl

end MacGal
